import Mathlib

set_option maxHeartbeats 1000000

/-!
Shallow embedding of the go-acoustid indexing core, translated from the Go
source: the inverted-index item model and merge engine (package `index`) and
the chromaprint fingerprint codec (package `chromaprint`).
-/

/-- One (term, docID) pair in the inverted index (Go `Item`): `Term` and
`DocID` are `uint32` values, modelled as `Nat`. -/
structure Item where
  Term : Nat
  DocID : Nat
deriving DecidableEq

/-- The error component of `ReadBlock`'s result: `io.EOF` or any other
(non-end-of-stream) error, identified by a numeric code. -/
inductive RErr where
  | eof : RErr
  | fail : Nat → RErr
deriving DecidableEq

/-- The concrete `ItemReader` implementations of the index package.
`nilRd` models a nil `ItemReader` interface value; `bufRd items` models an
`itemBufferReader` positioned so that `items` is the not-yet-read tail of the
buffer's item slice; `failRd c` models a source reader whose `ReadBlock`
returns the non-EOF error `c`; `multi r1 r2 b1 b2` models a `multiItemReader`
with source readers `r1`, `r2` and pending blocks `b1`, `b2`. -/
inductive Reader where
  | nilRd : Reader
  | bufRd : List Item → Reader
  | failRd : Nat → Reader
  | multi : Reader → Reader → List Item → List Item → Reader
deriving DecidableEq

/-- Whether a `Reader` is the nil interface value (Go `reader == nil`). -/
def Reader.isNil : Reader → Bool
  | .nilRd => true
  | _ => false

/-- The inner merge loop of `multiItemReader.ReadBlock` (source lines
191-211): while the output block (capacity `fuel`, 1024 in the source) is not
full, compare the two pending heads with
`v1.Term <= v2.Term || (v1.Term == v2.Term && v1.DocID <= v2.DocID)`,
append the chosen head, and stop as soon as the chosen side's pending block
becomes empty. Returns the emitted block and the two leftover pending
blocks. -/
def mergeLoop : Nat → List Item → List Item → List Item × List Item × List Item
  | 0, b1, b2 => ([], b1, b2)
  | _ + 1, [], b2 => ([], [], b2)
  | _ + 1, b1, [] => ([], b1, [])
  | fuel + 1, v1 :: t1, v2 :: t2 =>
    if v1.Term ≤ v2.Term ∨ (v1.Term = v2.Term ∧ v1.DocID ≤ v2.DocID) then
      match t1 with
      | [] => ([v1], [], v2 :: t2)
      | u :: t1' =>
        let res := mergeLoop fuel (u :: t1') (v2 :: t2)
        (v1 :: res.1, res.2.1, res.2.2)
    else
      match t2 with
      | [] => ([v2], v1 :: t1, [])
      | u :: t2' =>
        let res := mergeLoop fuel (v1 :: t1) (u :: t2')
        (v2 :: res.1, res.2.1, res.2.2)

/-- Result of one refill step in `multiItemReader.ReadBlock` (source lines
169-189): either the child call was a nil-interface method call (`panic`), or
the child failed with a non-EOF error (early return), or the side is ready
with its (possibly refilled) pending block and source. -/
inductive Refill where
  | panic : Refill
  | failed : Nat → List Item → Reader → Refill
  | ready : List Item → Reader → Refill

/-- One refill step of `multiItemReader.ReadBlock`: if the pending block is
empty and the source is non-nil, install the next block pulled from the source
(`res` is the source's `ReadBlock` result); end-of-stream marks the source as
permanently exhausted (`nil`); any other error is returned to the caller with
the side's block and source updated exactly as the Go assignments leave
them. -/
def refill (b : List Item) (r : Reader)
    (res : Option ((List Item × Option RErr) × Reader)) : Refill :=
  match b with
  | _ :: _ => .ready b r
  | [] =>
    if r.isNil then .ready b r
    else
      match res with
      | none => .panic
      | some ((blk, none), r') => .ready blk r'
      | some ((blk, some .eof), _) => .ready blk .nilRd
      | some ((blk, some (.fail c)), r') => .failed c blk r'

/-- `ReadBlock` for every reader shape (interface dispatch of the Go code).
The result is `none` when the Go program would panic (method call on a nil
interface); otherwise `some ((items, err), updatedReader)` mirrors the Go
return values together with the receiver's state after the call.
`bufRd` implements `itemBufferReader.ReadBlock` (return the whole remaining
slice, then `io.EOF`); `multi` implements `multiItemReader.ReadBlock`
(refill side 1, refill side 2, then merge / drain / end-of-stream). -/
def Reader.readBlock : Reader → Option ((List Item × Option RErr) × Reader)
  | .nilRd => none
  | .bufRd [] => some (([], some .eof), .bufRd [])
  | .bufRd (it :: rest) => some ((it :: rest, none), .bufRd [])
  | .failRd c => some (([], some (.fail c)), .failRd c)
  | .multi r1 r2 b1 b2 =>
    match refill b1 r1 r1.readBlock with
    | .panic => none
    | .failed c nb1 nr1 => some (([], some (.fail c)), .multi nr1 r2 nb1 b2)
    | .ready nb1 nr1 =>
      match refill b2 r2 r2.readBlock with
      | .panic => none
      | .failed c nb2 nr2 => some (([], some (.fail c)), .multi nr1 nr2 nb1 nb2)
      | .ready nb2 nr2 =>
        match nb1, nb2 with
        | v1 :: t1, v2 :: t2 =>
          let res := mergeLoop 1024 (v1 :: t1) (v2 :: t2)
          some ((res.1, none), .multi nr1 nr2 res.2.1 res.2.2)
        | _ :: _, [] => some ((nb1, none), .multi nr1 nr2 [] nb2)
        | [], _ :: _ => some ((nb2, none), .multi nr1 nr2 nb1 [])
        | [], [] => some (([], some .eof), .multi nr1 nr2 nb1 nb2)

/-- The two-reader case of `MergeItemReaders` (source lines 141-150): a nil
side is elided, otherwise a fresh pairwise merge node with empty pending
blocks is built. -/
def mergeTwo (a b : Reader) : Reader :=
  if a.isNil then b
  else if b.isNil then a
  else .multi a b [] []

/-- `MergeItemReaders` (source lines 135-156): zero readers yield the Go nil
interface value, one reader is returned unchanged, two readers build a
pairwise merge node, and more than two are split at the midpoint, each half
merged recursively, and the two results merged pairwise. -/
def MergeItemReaders (readers : List Reader) : Reader :=
  match readers with
  | [] => .nilRd
  | [r] => r
  | [r1, r2] => mergeTwo r1 r2
  | r1 :: r2 :: r3 :: rest =>
    let rs := r1 :: r2 :: r3 :: rest
    let mid := rs.length / 2
    mergeTwo (MergeItemReaders (rs.take mid)) (MergeItemReaders (rs.drop mid))
termination_by readers.length
decreasing_by
  · simp only [List.length_take, List.length_cons]
    omega
  · simp only [List.length_drop, List.length_cons]
    omega

/-- Result of draining a reader with `ReadAllItems`: `out items err` is the
Go return value (`err = none` after a clean `io.EOF`, `err = some c` for a
propagated failure), `panic` marks a nil-interface method call, and `fuelOut`
is a modelling artifact marking exhaustion of the loop-iteration budget (the
Go loop is unbounded; every theorem below quantifies over all sufficiently
large budgets). -/
inductive DrainResult where
  | out : List Item → Option Nat → DrainResult
  | panic : DrainResult
  | fuelOut : DrainResult
deriving DecidableEq

/-- `ReadAllItems` (source lines 25-37): repeatedly call `ReadBlock`,
appending every returned block (also the one accompanying an error), until an
error arrives; `io.EOF` is turned into success, any other error is returned
as is. `fuel` bounds the number of loop iterations. -/
def ReadAllItems : Nat → Reader → DrainResult
  | 0, _ => .fuelOut
  | fuel + 1, r =>
    match r.readBlock with
    | none => .panic
    | some ((block, none), r') =>
      match ReadAllItems fuel r' with
      | .out items e => .out (block ++ items) e
      | other => other
    | some ((block, some .eof), _) => .out block none
    | some ((block, some (.fail c)), _) => .out block (some c)

example : ReadAllItems 5 (MergeItemReaders [.bufRd [⟨5, 10⟩], .bufRd [⟨5, 3⟩]]) =
    .out [⟨5, 10⟩, ⟨5, 3⟩] none := by
  simp only [MergeItemReaders]
  decide

example : MergeItemReaders [] = .nilRd := by simp only [MergeItemReaders]

example : ReadAllItems 5 (MergeItemReaders []) = .panic := by
  simp only [MergeItemReaders]
  decide

/-- `ItemBuffer` (source lines 39-44): a mutable collection of items plus the
derived summary state `numDocs` (Go `int`, modelled as `Int`), `minDocID` and
`maxDocID` (Go `uint32`, modelled as `Nat`). -/
structure ItemBuffer where
  numDocs : Int
  minDocID : Nat
  maxDocID : Nat
  items : List Item
deriving DecidableEq

/-- The zero value of `ItemBuffer` (also the state after `Reset`). -/
def ItemBuffer.empty : ItemBuffer := ⟨0, 0, 0, []⟩

/-- `ItemBuffer.NumDocs`. -/
def ItemBuffer.NumDocs (ib : ItemBuffer) : Int := ib.numDocs

/-- `ItemBuffer.Empty` (source line 50): `len(ib.items) == 0`. -/
def ItemBuffer.Empty (ib : ItemBuffer) : Bool := ib.items.isEmpty

/-- `ItemBuffer.Add` (source lines 59-70): increment `numDocs`, update the
docID bounds by comparison (the first add sets both), and append one item per
term with the given docID. -/
def ItemBuffer.Add (ib : ItemBuffer) (docID : Nat) (terms : List Nat) :
    ItemBuffer :=
  let numDocs := ib.numDocs + 1
  let minD := if numDocs = 1 ∨ ib.minDocID > docID then docID else ib.minDocID
  let maxD := if numDocs = 1 ∨ ib.maxDocID < docID then docID else ib.maxDocID
  { numDocs := numDocs, minDocID := minD, maxDocID := maxD,
    items := ib.items ++ terms.map fun t => ⟨t, docID⟩ }

/-- `ItemBuffer.Delete` (source lines 72-109): cheap rejection outside the
`[minDocID, maxDocID]` range, in-place filter of all items with the docID,
`false` when nothing was removed, otherwise decrement `numDocs` and — only
when the removed docID equals the current min or max — reset the bounds to 0
and, while `numDocs > 0`, rescan the remaining items starting from
`math.MaxUint32` / `0`. Returns the Go boolean result and the updated
buffer. -/
def ItemBuffer.Delete (ib : ItemBuffer) (docID : Nat) : Bool × ItemBuffer :=
  if docID < ib.minDocID ∨ docID > ib.maxDocID then (false, ib)
  else
    let kept := ib.items.filter fun it => it.DocID ≠ docID
    if kept.length = ib.items.length then (false, ib)
    else
      let numDocs := ib.numDocs - 1
      if docID = ib.minDocID ∨ docID = ib.maxDocID then
        if numDocs > 0 then
          let minD := kept.foldl
            (fun m it => if it.DocID < m then it.DocID else m) 4294967295
          let maxD := kept.foldl
            (fun m it => if it.DocID > m then it.DocID else m) 0
          (true, ⟨numDocs, minD, maxD, kept⟩)
        else (true, ⟨numDocs, 0, 0, kept⟩)
      else (true, ⟨numDocs, ib.minDocID, ib.maxDocID, kept⟩)

/-- The lexicographic order on items used throughout the index package: term
ascending, then docID ascending (reflexive closure of the comparator passed
to `sort.Slice` in `ItemBuffer.Reader`, source lines 113-115). -/
def itemLe (a b : Item) : Prop :=
  a.Term < b.Term ∨ (a.Term = b.Term ∧ a.DocID ≤ b.DocID)

instance : DecidableRel itemLe := fun a b => by
  unfold itemLe
  infer_instance

instance : IsTotal Item itemLe := by
  constructor
  intro a b
  unfold itemLe
  omega

instance : IsTrans Item itemLe := by
  constructor
  intro a b c
  unfold itemLe
  omega

/-- The in-place sort performed by `ItemBuffer.Reader` (source lines
111-117): `sort.Slice` guarantees a permutation of the items that is
non-decreasing for the comparator; it is modelled by insertion sort over the
comparator's reflexive total closure `itemLe`. -/
def sortItems (items : List Item) : List Item := items.insertionSort itemLe

/-- `ItemBuffer.Reader` (source lines 111-117): sort the items in place by
(term, docID) and return an `itemBufferReader` positioned at the start. -/
def ItemBuffer.Reader (ib : ItemBuffer) : Reader := .bufRd (sortItems ib.items)

/-- One mutating operation on an `ItemBuffer`. -/
inductive Op where
  | add : Nat → List Nat → Op
  | delete : Nat → Op

/-- Apply one operation (the boolean result of `Delete` is discarded). -/
def applyOp (ib : ItemBuffer) : Op → ItemBuffer
  | .add d ts => ib.Add d ts
  | .delete d => (ib.Delete d).2

/-- The buffer reached from the empty buffer by a sequence of operations. -/
def runOps (ops : List Op) : ItemBuffer := ops.foldl applyOp ItemBuffer.empty

example : runOps [.add 5 [1], .add 5 [2], .delete 5] =
    ⟨1, 4294967295, 0, []⟩ := by decide

example : (runOps [.add 5 []]).Empty = true ∧ (runOps [.add 5 []]).numDocs = 1 := by
  decide

/-- The set of distinct docIDs currently present in an item list. -/
def docSet (items : List Item) : Finset Nat := (items.map Item.DocID).toFinset

/-- Inductive invariant of `ItemBuffer` maintained by `Add` and `Delete`:
`numDocs` dominates the number of distinct docIDs present, and
`minDocID` / `maxDocID` bound every present docID. -/
def BufInv (ib : ItemBuffer) : Prop :=
  ((docSet ib.items).card : Int) ≤ ib.numDocs ∧
  ∀ it ∈ ib.items, ib.minDocID ≤ it.DocID ∧ it.DocID ≤ ib.maxDocID

theorem foldlMin_le_init (l : List Item) (init : Nat) :
    l.foldl (fun m it => if it.DocID < m then it.DocID else m) init ≤ init := by
  induction l generalizing init with
  | nil => simp
  | cons h t ih =>
    simp only [List.foldl_cons]
    refine le_trans (ih _) ?_
    split <;> omega

theorem foldlMin_le (l : List Item) (init : Nat) (x : Item) (hx : x ∈ l) :
    l.foldl (fun m it => if it.DocID < m then it.DocID else m) init ≤ x.DocID := by
  induction l generalizing init with
  | nil => cases hx
  | cons h t ih =>
    simp only [List.foldl_cons]
    rcases List.mem_cons.mp hx with rfl | hx'
    · refine le_trans (foldlMin_le_init _ _) ?_
      split <;> omega
    · exact ih _ hx'

theorem foldlMax_init_le (l : List Item) (init : Nat) :
    init ≤ l.foldl (fun m it => if it.DocID > m then it.DocID else m) init := by
  induction l generalizing init with
  | nil => simp
  | cons h t ih =>
    simp only [List.foldl_cons]
    refine le_trans ?_ (ih _)
    split <;> omega

theorem foldlMax_ge (l : List Item) (init : Nat) (x : Item) (hx : x ∈ l) :
    x.DocID ≤ l.foldl (fun m it => if it.DocID > m then it.DocID else m) init := by
  induction l generalizing init with
  | nil => cases hx
  | cons h t ih =>
    simp only [List.foldl_cons]
    rcases List.mem_cons.mp hx with rfl | hx'
    · refine le_trans ?_ (foldlMax_init_le _ _)
      split <;> omega
    · exact ih _ hx'

theorem docSet_append (l1 l2 : List Item) :
    docSet (l1 ++ l2) = docSet l1 ∪ docSet l2 := by
  simp [docSet]

theorem docSet_filter_ne (l : List Item) (d : Nat) :
    docSet (l.filter fun it => it.DocID ≠ d) = (docSet l).erase d := by
  ext x
  simp only [docSet, List.mem_toFinset, List.mem_map, List.mem_filter,
    Finset.mem_erase, decide_not, Bool.not_eq_eq_eq_not, Bool.not_true,
    decide_eq_false_iff_not]
  constructor
  · rintro ⟨it, ⟨hmem, hne⟩, rfl⟩
    exact ⟨hne, it, hmem, rfl⟩
  · rintro ⟨hne, it, hmem, rfl⟩
    exact ⟨it, ⟨hmem, hne⟩, rfl⟩

theorem exists_removed {l : List Item} {d : Nat}
    (h : (l.filter fun it => it.DocID ≠ d).length ≠ l.length) :
    ∃ it ∈ l, it.DocID = d := by
  by_contra hc
  push_neg at hc
  have heq : l.filter (fun it => it.DocID ≠ d) = l :=
    List.filter_eq_self.mpr (by
      intro a ha
      simpa using hc a ha)
  rw [heq] at h
  exact h rfl

theorem mem_docSet_of_mem {l : List Item} {it : Item} (h : it ∈ l) :
    it.DocID ∈ docSet l := by
  simp only [docSet, List.mem_toFinset, List.mem_map]
  exact ⟨it, h, rfl⟩

theorem bufInv_add (ib : ItemBuffer) (d : Nat) (ts : List Nat)
    (h : BufInv ib) : BufInv (ib.Add d ts) := by
  obtain ⟨hcard, hbound⟩ := h
  have hsub : docSet (ts.map fun t => (⟨t, d⟩ : Item)) ⊆ {d} := by
    intro x hx
    simp only [docSet, List.mem_toFinset, List.mem_map] at hx
    obtain ⟨it, ⟨t, _, rfl⟩, rfl⟩ := hx
    simp
  constructor
  · simp only [ItemBuffer.Add, docSet_append]
    have h1 := Finset.card_union_le (docSet ib.items)
      (docSet (ts.map fun t => (⟨t, d⟩ : Item)))
    have h2 := Finset.card_le_card hsub
    simp only [Finset.card_singleton] at h2
    omega
  · intro it hit
    simp only [ItemBuffer.Add] at hit ⊢
    rcases List.mem_append.mp hit with hold | hnew
    · have hdm := mem_docSet_of_mem hold
      have h1 : (1 : Int) ≤ ib.numDocs :=
        le_trans (by exact_mod_cast Finset.card_pos.mpr ⟨_, hdm⟩) hcard
      have hb := hbound it hold
      constructor <;> split <;> omega
    · simp only [List.mem_map] at hnew
      obtain ⟨t, _, rfl⟩ := hnew
      constructor <;> dsimp only <;> split <;> omega

theorem bufInv_delete (ib : ItemBuffer) (d : Nat)
    (h : BufInv ib) : BufInv (ib.Delete d).2 := by
  obtain ⟨hcard, hbound⟩ := h
  by_cases h1 : d < ib.minDocID ∨ d > ib.maxDocID
  · simp only [ItemBuffer.Delete, if_pos h1]
    exact ⟨hcard, hbound⟩
  by_cases h2 : (ib.items.filter fun it => it.DocID ≠ d).length = ib.items.length
  · simp only [ItemBuffer.Delete, if_neg h1, if_pos h2]
    exact ⟨hcard, hbound⟩
  have hrem : ∃ it ∈ ib.items, it.DocID = d := exists_removed h2
  obtain ⟨itr, hitr, hitd⟩ := hrem
  have hmem : d ∈ docSet ib.items := hitd ▸ mem_docSet_of_mem hitr
  have hkcard : (docSet (ib.items.filter fun it => it.DocID ≠ d)).card =
      (docSet ib.items).card - 1 := by
    rw [docSet_filter_ne]
    exact Finset.card_erase_of_mem hmem
  have hcpos : 1 ≤ (docSet ib.items).card := Finset.card_pos.mpr ⟨_, hmem⟩
  by_cases h3 : d = ib.minDocID ∨ d = ib.maxDocID
  · by_cases h4 : ib.numDocs - 1 > 0
    · simp only [ItemBuffer.Delete, if_neg h1, if_neg h2, if_pos h3, if_pos h4]
      refine ⟨by dsimp only; omega, ?_⟩
      intro it hit
      exact ⟨foldlMin_le _ _ _ hit, foldlMax_ge _ _ _ hit⟩
    · simp only [ItemBuffer.Delete, if_neg h1, if_neg h2, if_pos h3, if_neg h4]
      refine ⟨by dsimp only; omega, ?_⟩
      intro it hit
      exfalso
      have hone : 1 ≤ (docSet (ib.items.filter fun x => x.DocID ≠ d)).card :=
        Finset.card_pos.mpr ⟨_, mem_docSet_of_mem hit⟩
      omega
  · simp only [ItemBuffer.Delete, if_neg h1, if_neg h2, if_neg h3]
    refine ⟨by dsimp only; omega, ?_⟩
    intro it hit
    exact hbound it (List.mem_filter.mp hit).1

theorem runOps_inv (ops : List Op) : BufInv (runOps ops) := by
  suffices h : ∀ ib, BufInv ib → BufInv (ops.foldl applyOp ib) by
    refine h _ ⟨?_, ?_⟩
    · simp [docSet, ItemBuffer.empty]
    · simp [ItemBuffer.empty]
  induction ops with
  | nil => exact fun ib h => h
  | cons op rest ih =>
    intro ib h
    simp only [List.foldl_cons]
    refine ih _ ?_
    cases op with
    | add d ts => exact bufInv_add _ _ _ h
    | delete d => exact bufInv_delete _ _ h

/-! Fingerprint codec (package `chromaprint`). -/

/-- A parsed fingerprint (Go `Fingerprint`): the version of the generating
algorithm and the ordered hash sequence (`uint32` values as `Nat`). -/
structure Fingerprint where
  Version : Nat
  Hashes : List Nat
deriving DecidableEq

/-- Error kinds of the codec: `invalidFingerprint msg` models an error whose
cause (in the `github.com/pkg/errors` sense) is `ErrInvalidFingerprint`;
`base64` models a `base64.CorruptInputError` produced by the standard library
decoder. -/
inductive CodecError where
  | invalidFingerprint : String → CodecError
  | base64 : CodecError
deriving DecidableEq

/-- Whether the error's cause is `ErrInvalidFingerprint`. -/
def CodecError.isInvalidFingerprint : CodecError → Bool
  | .invalidFingerprint _ => true
  | .base64 => false

/-- `errors.Wrap` adds a message but keeps the cause, so the model keeps the
error value unchanged. -/
def errorsWrap (e : CodecError) (_msg : String) : CodecError := e

/-- Modelled from the spec: `unpackInt3Array` and `unpackInt5Array` live in a
file of the chromaprint package that is not under src/. Per spec §3
("Bit-code arrays") and §4.1, the byte buffer is an MSB-first bitstream from
which successive fixed-width unsigned integers are extracted until the stream
is exhausted. `byteBits` lists the eight bits of one byte, most significant
first. -/
def byteBits (b : Nat) : List Nat :=
  [b / 128 % 2, b / 64 % 2, b / 32 % 2, b / 16 % 2, b / 8 % 2, b / 4 % 2,
   b / 2 % 2, b % 2]

/-- Modelled from the spec: accumulate `width`-bit codes from a bit list;
`acc` is the partial code and `k` the number of bits still missing from the
current code; a trailing incomplete code is discarded. -/
def packChunks (width : Nat) : List Nat → Nat → Nat → List Nat
  | [], _, _ => []
  | b :: rest, acc, k =>
    if k ≤ 1 then (acc * 2 + b) :: packChunks width rest 0 width
    else packChunks width rest (acc * 2 + b) (k - 1)

/-- Modelled from the spec: unpack a packed 3-bit code array. -/
def unpackInt3Array (data : List Nat) : List Nat :=
  packChunks 3 (data.map byteBits).flatten 0 3

/-- Modelled from the spec: unpack a packed 5-bit code array. -/
def unpackInt5Array (data : List Nat) : List Nat :=
  packChunks 5 (data.map byteBits).flatten 0 5

/-- `binary.BigEndian.Uint32` over the first four bytes of the buffer (only
used after the length-at-least-4 check). -/
def bigEndianUint32 (data : List Nat) : Nat :=
  ((data.getD 0 0 * 256 + data.getD 1 0) * 256 + data.getD 2 0) * 256 +
    data.getD 3 0

/-- The truncation scan of `unpackFingerprint` (source lines 82-95): walk the
3-bit codes counting zero codes; at the `total`-th zero code the list is
truncated right after it; `none` when the codes run out first (`numValues !=
totalValues`, source line 97). -/
def takeUntilZeros : Nat → List Nat → Option (List Nat)
  | _, [] => none
  | total, b :: rest =>
    if b = 0 then
      if total ≤ 1 then some [b]
      else (takeUntilZeros (total - 1) rest).map (b :: ·)
    else (takeUntilZeros total rest).map (b :: ·)

/-- Escape resolution (source lines 106-112): each code equal to 7 is
incremented by the next exceptional value in order (the length equality
checked just before guarantees that exactly one exceptional value exists per
7-code). -/
def resolveExceptional : List Nat → List Nat → List Nat
  | [], _ => []
  | b :: rest, es =>
    if b = 7 then (7 + es.headD 0) :: resolveExceptional rest es.tail
    else b :: resolveExceptional rest es

/-- Two's-complement wrap of a Go `int8` value. -/
def wrap8 (x : Int) : Int := (x + 128) % 256 - 128

/-- The value OR-ed into `hashes[hi]` by `hashes[hi] |= 1 << uint(lastBit-1)`
for a Go `int8` accumulator `lastBit`: the shift count `uint(lastBit-1)` is
below 32 exactly when `1 ≤ lastBit ≤ 32`; any other accumulator value
produces a count of 32 or more (a negative `int8` converts to a huge `uint`,
and `-128 - 1` wraps to `127`), and a `uint32` shifted that far is 0. -/
def shiftBit (lastBit : Int) : Nat :=
  if 1 ≤ lastBit ∧ lastBit ≤ 32 then 2 ^ (lastBit.toNat - 1) else 0

/-- The hash reconstruction loop of `unpackFingerprint` (source lines
115-130), with every access to the `hashes` array bounds-checked: `none`
models a Go index-out-of-range panic. `hi` is the running value index and
`lastBit` the `int8` bit-position accumulator (reset to 0 by every zero
code). -/
def reconstructLoop : List Nat → List Nat → Nat → Int → Option (List Nat)
  | [], hashes, _, _ => some hashes
  | b :: rest, hashes, hi, lastBit =>
    if b = 0 then
      if hi > 0 then
        match hashes.get? hi, hashes.get? (hi - 1) with
        | some x, some y =>
          reconstructLoop rest (hashes.set hi (x ^^^ y)) (hi + 1) 0
        | _, _ => none
      else reconstructLoop rest hashes (hi + 1) 0
    else
      let lb := wrap8 (lastBit + b)
      match hashes.get? hi with
      | some x => reconstructLoop rest (hashes.set hi (x ||| shiftBit lb)) hi lb
      | none => none

/-- Outcome of `unpackFingerprint`: Go returns an error or fills the
`Fingerprint` pointed to by `fp` (`ok none` for a nil `fp`, `ok (some f)`
otherwise); `panic` models an index-out-of-range runtime panic. -/
inductive UnpackResult where
  | ok : Option Fingerprint → UnpackResult
  | err : CodecError → UnpackResult
  | panic : UnpackResult
deriving DecidableEq

/-- Whether the outcome is a runtime panic. -/
def UnpackResult.isPanic : UnpackResult → Bool
  | .panic => true
  | _ => false

/-- Outcome of the `fp`-independent front half of `unpackFingerprint`: the
version, declared value count and resolved code array on success, an error,
or a runtime panic of the slice expression `data[offset:]` (source line 102)
when `offset` exceeds the input length. -/
inductive CommonResult where
  | ok : Nat → Nat → List Nat → CommonResult
  | err : CodecError → CommonResult
  | panic : CommonResult
deriving DecidableEq

/-- Whether the front half panics. -/
def CommonResult.isPanic : CommonResult → Bool
  | .panic => true
  | _ => false

/-- The `fp`-independent front half of `unpackFingerprint` (source lines
66-113): length check, big-endian header split into version and
`totalValues`, 3-bit code scan with truncation at the `totalValues`-th zero
code, byte-offset bookkeeping `(len(bits)*3 + 8) / 8`, and exceptional-code
resolution. Returns the version, the declared value count and the fully
resolved code array. The Go slice `data[offset:]` feeding the 5-bit unpack
is a runtime panic when `offset > len(data)` (which can happen: the `+8` in
the offset formula overshoots a buffer that ends at the code array), and is
modelled as `panic`. -/
def unpackCommon (data : List Nat) : CommonResult :=
  if data.length < 4 then
    .err (.invalidFingerprint "encoded fingerprint is less than 4 bytes")
  else
    let header := bigEndianUint32 data
    let version := (header >>> 24) &&& 0xff
    let totalValues := header &&& 0xffffff
    if totalValues = 0 then
      .err (.invalidFingerprint "fingerprint contains no items")
    else
      match takeUntilZeros totalValues (unpackInt3Array (data.drop 4)) with
      | none =>
        .err (.invalidFingerprint "not enough data to decode normal bits")
      | some bits =>
        let offset := 4 + (bits.length * 3 + 8) / 8
        let numExceptionalBits := bits.count 7
        if numExceptionalBits > 0 then
          if data.length < offset then .panic
          else
            let exceptionalBits := unpackInt5Array (data.drop offset)
            if exceptionalBits.length = numExceptionalBits then
              .ok version totalValues (resolveExceptional bits exceptionalBits)
            else
              .err
                (.invalidFingerprint "not enough data to decode exceptional bits")
        else .ok version totalValues bits

/-- `unpackFingerprint` (source lines 66-136): the shared front half followed
by hash reconstruction into a fresh all-zero array of length `totalValues`
when `fp != nil` (`wantFp = true`); a front-half panic propagates. -/
def unpackFingerprint (data : List Nat) (wantFp : Bool) : UnpackResult :=
  match unpackCommon data with
  | .err e => .err e
  | .panic => .panic
  | .ok version totalValues bits =>
    if wantFp then
      match reconstructLoop bits (List.replicate totalValues 0) 0 0 with
      | some hashes => .ok (some ⟨version, hashes⟩)
      | none => .panic
    else .ok none

/-- `ParseFingerprint` (source lines 33-40). -/
def ParseFingerprint (data : List Nat) : UnpackResult :=
  unpackFingerprint data true

/-- `ValidateFingerprint` (source lines 52-55): run `unpackFingerprint` with
a nil `fp` and report whether it returned no error. In Go a front-half panic
would propagate out of this function rather than produce a boolean; the
Bool-valued model maps the panic outcome to `false` (the panic itself is
exposed by `unpackFingerprint`). -/
def ValidateFingerprint (data : List Nat) : Bool :=
  match unpackFingerprint data false with
  | .ok _ => true
  | _ => false

/-- Model of the Go standard library's URL-safe unpadded base64 alphabet
(`base64.RawURLEncoding`): the 6-bit value of one character, `none` for a
character outside the alphabet. -/
def b64Index (c : Char) : Option Nat :=
  let n := c.toNat
  if 65 ≤ n ∧ n ≤ 90 then some (n - 65)
  else if 97 ≤ n ∧ n ≤ 122 then some (n - 71)
  else if 48 ≤ n ∧ n ≤ 57 then some (n + 4)
  else if n = 45 then some 62
  else if n = 95 then some 63
  else none

/-- Model of `base64.RawURLEncoding.DecodeString`: groups of four characters
become three bytes; a trailing group of two or three characters becomes one
or two bytes (trailing bits discarded, as in the non-strict Go decoder); a
trailing single character or any character outside the alphabet is a
`CorruptInputError` (`none`). -/
def b64Decode : List Char → Option (List Nat)
  | [] => some []
  | [_] => none
  | [c1, c2] =>
    match b64Index c1, b64Index c2 with
    | some a, some b => some [(a * 64 + b) / 16]
    | _, _ => none
  | [c1, c2, c3] =>
    match b64Index c1, b64Index c2, b64Index c3 with
    | some a, some b, some c =>
      some [((a * 64 + b) * 64 + c) / 1024, ((a * 64 + b) * 64 + c) / 4 % 256]
    | _, _, _ => none
  | c1 :: c2 :: c3 :: c4 :: rest =>
    match b64Index c1, b64Index c2, b64Index c3, b64Index c4 with
    | some a, some b, some c, some d =>
      (b64Decode rest).map fun tail =>
        (((a * 64 + b) * 64 + c) * 64 + d) / 65536 ::
          (((a * 64 + b) * 64 + c) * 64 + d) / 256 % 256 ::
          (((a * 64 + b) * 64 + c) * 64 + d) % 256 :: tail
    | _, _, _, _ => none

/-- `DecodeFingerprintString` (source lines 20-25): the empty string fails
with the bare `ErrInvalidFingerprint`; otherwise the standard library RawURL
base64 decoder's result is returned unchanged. -/
def DecodeFingerprintString (str : String) : Except CodecError (List Nat) :=
  if str.data.isEmpty then .error (.invalidFingerprint "invalid fingerprint")
  else
    match b64Decode str.data with
    | some data => .ok data
    | none => .error .base64

/-- `ParseFingerprintString` (source lines 43-49): decode the text form
(wrapping a decode failure with "decoding failed") and parse the bytes. -/
def ParseFingerprintString (str : String) : UnpackResult :=
  match DecodeFingerprintString str with
  | .error e => .err (errorsWrap e "decoding failed")
  | .ok data => ParseFingerprint data

example : ValidateFingerprint [0, 0, 0, 1, 0] = true := by decide

example : ParseFingerprint [0, 0, 0, 1, 0] = .ok (some ⟨0, [0]⟩) := by decide

example : ParseFingerprintString "!" = .err .base64 := by decide

example : ValidateFingerprint [0, 0, 0] = false := by decide

theorem takeUntilZeros_spec :
    ∀ (bits : List Nat) (total : Nat) (pre : List Nat),
      takeUntilZeros total bits = some pre → 1 ≤ total →
      pre.count 0 = total ∧ pre.getLast? = some 0 := by
  intro bits
  induction bits with
  | nil =>
    intro total pre h _
    simp [takeUntilZeros] at h
  | cons b rest ih =>
    intro total pre h htot
    simp only [takeUntilZeros] at h
    by_cases hb : b = 0
    · rw [if_pos hb] at h
      by_cases h1 : total ≤ 1
      · rw [if_pos h1] at h
        obtain rfl := Option.some_inj.mp h.symm
        subst hb
        refine ⟨by simp; omega, by simp⟩
      · rw [if_neg h1] at h
        obtain ⟨pre', hpre', rfl⟩ := Option.map_eq_some'.mp h
        obtain ⟨hc, hl⟩ := ih (total - 1) pre' hpre' (by omega)
        subst hb
        refine ⟨?_, ?_⟩
        · have hcc : ((0 : Nat) :: pre').count 0 = pre'.count 0 + 1 := by simp
          rw [hcc, hc]
          omega
        · cases pre' with
          | nil => simp at hl
          | cons x xs => simpa using hl
    · rw [if_neg hb] at h
      obtain ⟨pre', hpre', rfl⟩ := Option.map_eq_some'.mp h
      obtain ⟨hc, hl⟩ := ih total pre' hpre' htot
      refine ⟨?_, ?_⟩
      · have hcc : (b :: pre').count 0 = pre'.count 0 := by
          simp [List.count_cons, hb]
        rw [hcc, hc]
      · cases pre' with
        | nil => simp at hl
        | cons x xs => simpa using hl

theorem resolveExceptional_length :
    ∀ (l es : List Nat), (resolveExceptional l es).length = l.length := by
  intro l
  induction l with
  | nil => intro es; rfl
  | cons b rest ih =>
    intro es
    simp only [resolveExceptional]
    split <;> simp [ih]

theorem resolveExceptional_count0 :
    ∀ (l es : List Nat), (resolveExceptional l es).count 0 = l.count 0 := by
  intro l
  induction l with
  | nil => intro es; rfl
  | cons b rest ih =>
    intro es
    simp only [resolveExceptional]
    by_cases hb : b = 7
    · rw [if_pos hb]
      subst hb
      simp [List.count_cons, ih]
    · rw [if_neg hb]
      simp [List.count_cons, ih]

theorem getLast?_cons_eq {a : Nat} {l : List Nat} (h : l ≠ []) :
    (a :: l).getLast? = l.getLast? := by
  cases l with
  | nil => exact absurd rfl h
  | cons x xs => exact List.getLast?_cons_cons

theorem resolveExceptional_getLast0 :
    ∀ (l es : List Nat), l.getLast? = some 0 →
      (resolveExceptional l es).getLast? = some 0 := by
  intro l
  induction l with
  | nil => intro es h; simp at h
  | cons b rest ih =>
    intro es h
    cases rest with
    | nil =>
      simp only [List.getLast?_singleton, Option.some_inj] at h
      subst h
      simp [resolveExceptional]
    | cons r rs =>
      rw [List.getLast?_cons_cons] at h
      rw [resolveExceptional]
      split
      · have h2 : resolveExceptional (r :: rs) es.tail ≠ [] := by
          intro hcon
          have hl := resolveExceptional_length (r :: rs) es.tail
          rw [hcon] at hl
          simp at hl
        rw [getLast?_cons_eq h2]
        exact ih es.tail h
      · have h2 : resolveExceptional (r :: rs) es ≠ [] := by
          intro hcon
          have hl := resolveExceptional_length (r :: rs) es
          rw [hcon] at hl
          simp at hl
        rw [getLast?_cons_eq h2]
        exact ih es h

theorem mem_of_getLastZero :
    ∀ {l : List Nat}, l.getLast? = some 0 → (0 : Nat) ∈ l := by
  intro l
  induction l with
  | nil => intro h; simp at h
  | cons a t ih =>
    intro h
    cases t with
    | nil =>
      simp only [List.getLast?_singleton, Option.some_inj] at h
      simp [h]
    | cons b u =>
      rw [List.getLast?_cons_cons] at h
      exact List.mem_cons_of_mem _ (ih h)

theorem reconstructLoop_isSome :
    ∀ (bits hashes : List Nat) (hi : Nat) (lastBit : Int),
      bits.getLast? = some 0 → hi + bits.count 0 ≤ hashes.length →
      (reconstructLoop bits hashes hi lastBit).isSome = true := by
  intro bits
  induction bits with
  | nil => intro hashes hi lastBit h _; simp at h
  | cons b rest ih =>
    intro hashes hi lastBit hlast hle
    simp only [reconstructLoop]
    by_cases hb : b = 0
    · subst hb
      rw [if_pos rfl]
      have hcount : (0 :: rest : List Nat).count 0 = rest.count 0 + 1 := by simp
      have hhi : hi < hashes.length := by omega
      by_cases hr : rest = []
      · subst hr
        by_cases hp : 0 < hi
        · rw [if_pos hp]
          cases hx : hashes.get? hi with
          | none => rw [List.get?_eq_none] at hx; omega
          | some x =>
            cases hy : hashes.get? (hi - 1) with
            | none => rw [List.get?_eq_none] at hy; omega
            | some y => simp [reconstructLoop]
        · rw [if_neg hp]
          simp [reconstructLoop]
      · have hlast' : rest.getLast? = some 0 := by
          cases rest with
          | nil => exact absurd rfl hr
          | cons r rs => rw [List.getLast?_cons_cons] at hlast; exact hlast
        by_cases hp : 0 < hi
        · rw [if_pos hp]
          cases hx : hashes.get? hi with
          | none => rw [List.get?_eq_none] at hx; omega
          | some x =>
            cases hy : hashes.get? (hi - 1) with
            | none => rw [List.get?_eq_none] at hy; omega
            | some y =>
              apply ih
              · exact hlast'
              · rw [List.length_set]
                omega
        · rw [if_neg hp]
          apply ih
          · exact hlast'
          · omega
    · rw [if_neg hb]
      have hrne : rest ≠ [] := by
        intro hcon
        subst hcon
        simp only [List.getLast?_singleton, Option.some_inj] at hlast
        exact hb hlast
      have hlast' : rest.getLast? = some 0 := by
        cases rest with
        | nil => exact absurd rfl hrne
        | cons r rs => rw [List.getLast?_cons_cons] at hlast; exact hlast
      have hcount : (b :: rest).count 0 = rest.count 0 := by
        simp [List.count_cons, hb]
      have hpos : 0 < rest.count 0 :=
        List.count_pos_iff.mpr (mem_of_getLastZero hlast')
      have hhi : hi < hashes.length := by omega
      cases hx : hashes.get? hi with
      | none => rw [List.get?_eq_none] at hx; omega
      | some x =>
        apply ih
        · exact hlast'
        · rw [List.length_set]
          omega

theorem unpackCommon_spec {data : List Nat} {v total : Nat} {bits : List Nat}
    (h : unpackCommon data = .ok v total bits) :
    bits.count 0 = total ∧ bits.getLast? = some 0 := by
  simp only [unpackCommon] at h
  split at h
  · cases h
  split at h
  · cases h
  rename_i htv
  split at h
  · cases h
  rename_i bits1 hscan
  obtain ⟨hc, hl⟩ := takeUntilZeros_spec _ _ _ hscan (by omega)
  split at h
  · split at h
    · cases h
    split at h
    · simp only [CommonResult.ok.injEq] at h
      obtain ⟨-, rfl, rfl⟩ := h
      exact ⟨by rw [resolveExceptional_count0, hc],
        resolveExceptional_getLast0 _ _ hl⟩
    · cases h
  · simp only [CommonResult.ok.injEq] at h
    obtain ⟨-, rfl, rfl⟩ := h
    exact ⟨hc, hl⟩

theorem unpackCommon_err_invalid {data : List Nat} {e : CodecError}
    (h : unpackCommon data = .err e) : e.isInvalidFingerprint = true := by
  simp only [unpackCommon] at h
  split at h
  · injection h with h'
    subst h'
    rfl
  split at h
  · injection h with h'
    subst h'
    rfl
  split at h
  · injection h with h'
    subst h'
    rfl
  split at h
  · split at h
    · cases h
    split at h
    · cases h
    · injection h with h'
      subst h'
      rfl
  · cases h

theorem ParseFingerprint_err_invalid {data : List Nat} {e : CodecError}
    (h : ParseFingerprint data = .err e) : e.isInvalidFingerprint = true := by
  unfold ParseFingerprint unpackFingerprint at h
  cases hc : unpackCommon data with
  | err e' =>
    rw [hc] at h
    simp only at h
    injection h with h'
    subst h'
    exact unpackCommon_err_invalid hc
  | panic =>
    rw [hc] at h
    simp at h
  | ok v total bits =>
    rw [hc] at h
    obtain ⟨hcount, hlast⟩ := unpackCommon_spec hc
    have hsome := reconstructLoop_isSome bits (List.replicate total 0) 0 0
      hlast (by simp [hcount])
    rcases hrec : reconstructLoop bits (List.replicate total 0) 0 0 with _ | hs
    · rw [hrec] at hsome
      simp at hsome
    · simp [hrec] at h

theorem readAll_bufRd (n : Nat) (l : List Item) :
    ReadAllItems (n + 2) (.bufRd l) = .out l none := by
  cases l with
  | nil => rfl
  | cons it rest => simp [ReadAllItems, Reader.readBlock]

theorem ReadAllItems_step_ok {r r' : Reader} {block : List Item} (fuel : Nat)
    (h : r.readBlock = some ((block, none), r')) :
    ReadAllItems (fuel + 1) r =
      match ReadAllItems fuel r' with
      | .out items e => .out (block ++ items) e
      | other => other := by
  simp only [ReadAllItems, h]

theorem ReadAllItems_step_eof {r r' : Reader} {block : List Item} (fuel : Nat)
    (h : r.readBlock = some ((block, some .eof), r')) :
    ReadAllItems (fuel + 1) r = .out block none := by
  simp only [ReadAllItems, h]

/-! Claim theorems. -/

/-- C1: the merge fails the claimed merge-correctness law already for two
sorted single-item sequences: draining the merge of [(term 5, docID 10)] and
[(term 5, docID 3)] yields [(5,10),(5,3)] (for every sufficient iteration
budget), while the sorted concatenation of the inputs is [(5,3),(5,10)] —
the comparator's `<=` on terms makes the left side win every term tie
regardless of docID, so the output is not the sorted multiset union. -/
theorem C1_merge_not_sorted_eval (n : Nat) :
    ReadAllItems (n + 3) (MergeItemReaders [.bufRd [⟨5, 10⟩], .bufRd [⟨5, 3⟩]]) =
      .out [⟨5, 10⟩, ⟨5, 3⟩] none ∧
    sortItems ([⟨5, 10⟩] ++ [⟨5, 3⟩]) = [⟨5, 3⟩, ⟨5, 10⟩] := by
  constructor
  · have hm : MergeItemReaders [.bufRd [⟨5, 10⟩], .bufRd [⟨5, 3⟩]] =
        .multi (.bufRd [⟨5, 10⟩]) (.bufRd [⟨5, 3⟩]) [] [] := by
      simp [MergeItemReaders, mergeTwo, Reader.isNil]
    rw [hm]
    have h1 : Reader.readBlock (.multi (.bufRd [⟨5, 10⟩]) (.bufRd [⟨5, 3⟩]) [] []) =
        some (([⟨5, 10⟩], none), .multi (.bufRd []) (.bufRd []) [] [⟨5, 3⟩]) := by
      decide
    have h2 : Reader.readBlock (.multi (.bufRd []) (.bufRd []) [] [⟨5, 3⟩]) =
        some (([⟨5, 3⟩], none), .multi .nilRd (.bufRd []) [] []) := by
      decide
    have h3 : Reader.readBlock (.multi .nilRd (.bufRd []) [] []) =
        some (([], some .eof), .multi .nilRd .nilRd [] []) := by
      decide
    show ReadAllItems (n + 1 + 1 + 1) _ = _
    rw [ReadAllItems_step_ok (n + 1 + 1) h1, ReadAllItems_step_ok (n + 1) h2,
      ReadAllItems_step_eof n h3]
    rfl
  · decide

/-- C2: with pending head (term 5, docID 10) on the left and the strictly
smaller head (term 5, docID 3) on the right, the pairwise merge node emits
the LEFT head first: the comparison `v1.Term <= v2.Term || ...` picks the
left side whenever the terms are equal, so the element appended is not the
smaller of the two heads and the docID tie-break never applies. -/
theorem C2_pairwise_pick_eval :
    Reader.readBlock (.multi .nilRd .nilRd [⟨5, 10⟩] [⟨5, 3⟩]) =
      some (([⟨5, 10⟩], none), .multi .nilRd .nilRd [] [⟨5, 3⟩]) ∧
    itemLe ⟨5, 3⟩ ⟨5, 10⟩ ∧
    (⟨5, 3⟩ : Item).Term = (⟨5, 10⟩ : Item).Term ∧
    (⟨5, 3⟩ : Item).DocID < (⟨5, 10⟩ : Item).DocID := by
  refine ⟨by decide, ?_, rfl, by decide⟩
  simp [itemLe]

/-- C3 counterexample: `MergeItemReaders` applied to zero readers returns
the Go nil interface value, not a usable no-op reader, and `ReadAllItems`
applied to that result is a nil-pointer panic instead of a normal return of
the empty sequence. -/
theorem C3_counterexample :
    MergeItemReaders [] = .nilRd ∧
    ReadAllItems 5 (MergeItemReaders []) = .panic := by
  refine ⟨by simp only [MergeItemReaders], ?_⟩
  simp only [MergeItemReaders]
  decide

/-- C3 (amended): zero readers yield the nil reader; draining the nil reader
panics for every positive iteration budget (it is not an immediate
end-of-stream no-op); a nil reader fed to a pairwise merge is, however,
elided as already exhausted, so merging nil with any reader returns that
reader unchanged. -/
theorem C3_zero_readers_amended :
    MergeItemReaders [] = .nilRd ∧
    (∀ n : Nat, ReadAllItems (n + 1) .nilRd = .panic) ∧
    (∀ r : Reader, MergeItemReaders [.nilRd, r] = r) ∧
    (∀ r : Reader, MergeItemReaders [r, .nilRd] = r) := by
  refine ⟨by simp only [MergeItemReaders], fun n => rfl, ?_, ?_⟩
  · intro r
    simp [MergeItemReaders, mergeTwo, Reader.isNil]
  · intro r
    cases r <;> simp [MergeItemReaders, mergeTwo, Reader.isNil]

/-- C4 counterexample: adding docID 5 twice and then deleting it reaches a
buffer with `NumDocs = 1 > 0` whose bounds are inverted:
`maxDocID = 0 < minDocID = 4294967295`. -/
theorem C4_counterexample :
    (runOps [.add 5 [1], .add 5 [2], .delete 5]).numDocs = 1 ∧
    (runOps [.add 5 [1], .add 5 [2], .delete 5]).maxDocID <
      (runOps [.add 5 [1], .add 5 [2], .delete 5]).minDocID := by
  decide

/-- C4 (amended): in every buffer reachable from the empty buffer by `Add`
and `Delete` operations, `minDocID ≤ maxDocID` holds whenever the buffer
still contains at least one posting; the claim's guard `NumDocs > 0` is not
sufficient because deleting a docID that was added more than once decrements
`numDocs` by one only. -/
theorem C4_bounds_amended (ops : List Op) (it : Item)
    (h : it ∈ (runOps ops).items) :
    (runOps ops).minDocID ≤ (runOps ops).maxDocID := by
  obtain ⟨-, hbound⟩ := runOps_inv ops
  obtain ⟨h1, h2⟩ := hbound it h
  omega

/-- C4 witness: the buffer reached by `add 3 [7]` holds the posting
(term 7, docID 3) and satisfies `minDocID ≤ maxDocID`. -/
theorem C4_bounds_amended_witness :
    (runOps [.add 3 [7]]).minDocID ≤ (runOps [.add 3 [7]]).maxDocID :=
  C4_bounds_amended [.add 3 [7]] ⟨7, 3⟩ (by decide)

/-- C5 counterexample: adding a document with an empty term list reaches a
buffer with `Empty() = true` while `NumDocs = 1 ≠ 0`. -/
theorem C5_counterexample :
    (runOps [.add 5 []]).Empty = true ∧
    (runOps [.add 5 []]).numDocs = 1 := by
  decide

/-- C5 (amended): in every reachable buffer, `Empty()` is true exactly when
no posting is stored, and `NumDocs = 0` implies `Empty() = true`; the
converse implication fails (a document may contribute zero postings, and a
delete of a multiply-added docID can empty the items while `numDocs` stays
positive). -/
theorem C5_empty_amended (ops : List Op) :
    ((runOps ops).Empty = true ↔ (runOps ops).items = []) ∧
    ((runOps ops).numDocs = 0 → (runOps ops).Empty = true) := by
  constructor
  · simp [ItemBuffer.Empty, List.isEmpty_iff]
  · intro h0
    obtain ⟨hcard, -⟩ := runOps_inv ops
    cases hit : (runOps ops).items with
    | nil => simp [ItemBuffer.Empty, hit]
    | cons a t =>
      exfalso
      have hmm : a ∈ (runOps ops).items := by
        rw [hit]
        exact List.mem_cons_self a t
      have hpos : 0 < (docSet (runOps ops).items).card :=
        Finset.card_pos.mpr ⟨_, mem_docSet_of_mem hmm⟩
      rw [h0] at hcard
      omega

/-- C5 witness: the empty buffer has `NumDocs = 0` and `Empty() = true`. -/
theorem C5_empty_amended_witness : (runOps []).Empty = true :=
  (C5_empty_amended []).2 (by decide)

/-- C6: for a non-empty buffer, draining the reader returned by `Reader()`
yields exactly the sorted item sequence (for every sufficient iteration
budget), and that sequence is pairwise non-decreasing in the (term, docID)
lexicographic order. -/
theorem C6_reader_sorted (ib : ItemBuffer) (n : Nat) (it : Item)
    (_h : it ∈ ib.items) :
    ReadAllItems (n + 2) (ItemBuffer.Reader ib) =
      .out (sortItems ib.items) none ∧
    List.Pairwise itemLe (sortItems ib.items) :=
  ⟨readAll_bufRd n (sortItems ib.items),
   List.sorted_insertionSort itemLe ib.items⟩

/-- C6 witness: draining the reader of a concrete two-item buffer yields its
sorted items, in non-decreasing (term, docID) order. -/
theorem C6_reader_sorted_witness :
    ReadAllItems 2 (ItemBuffer.Reader ⟨2, 10, 20, [⟨2, 20⟩, ⟨1, 10⟩]⟩) =
      .out (sortItems [⟨2, 20⟩, ⟨1, 10⟩]) none ∧
    List.Pairwise itemLe (sortItems [⟨2, 20⟩, ⟨1, 10⟩]) :=
  C6_reader_sorted ⟨2, 10, 20, [⟨2, 20⟩, ⟨1, 10⟩]⟩ 0 ⟨2, 20⟩ (by decide)

/-- C7: validation mode has exactly the failure conditions of full decode:
for every byte array, `ValidateFingerprint` returns true exactly when
`ParseFingerprint` returns a fingerprint with no error. -/
theorem C7_validate_iff_parse (data : List Nat) :
    ValidateFingerprint data = true ↔
      ∃ fp, ParseFingerprint data = .ok (some fp) := by
  unfold ValidateFingerprint ParseFingerprint unpackFingerprint
  cases hc : unpackCommon data with
  | err e => simp
  | panic => simp
  | ok v total bits =>
    obtain ⟨hcount, hlast⟩ := unpackCommon_spec hc
    have hsome := reconstructLoop_isSome bits (List.replicate total 0) 0 0
      hlast (by simp [hcount])
    rcases hrec : reconstructLoop bits (List.replicate total 0) 0 0 with _ | hs
    · rw [hrec] at hsome
      simp at hsome
    · simp only [hrec]
      constructor
      · intro _
        exact ⟨⟨v, hs⟩, by simp⟩
      · intro _
        rfl

/-- C7 witness: the concrete valid fingerprint bytes [0,0,0,1,0] validate,
via the parse direction of the equivalence. -/
theorem C7_validate_iff_parse_witness :
    ValidateFingerprint [0, 0, 0, 1, 0] = true :=
  (C7_validate_iff_parse [0, 0, 0, 1, 0]).mpr ⟨⟨0, [0]⟩, by decide⟩

/-- C8 counterexample: `ParseFingerprintString "!"` fails with the standard
library base64 decoder's error, whose cause is not `ErrInvalidFingerprint`,
so not every decode failure carries the `InvalidFingerprint` kind. -/
theorem C8_counterexample :
    ParseFingerprintString "!" = .err .base64 ∧
    CodecError.isInvalidFingerprint .base64 = false := by
  refine ⟨by decide, rfl⟩

/-- C8 (amended): every failure of the binary entry point `ParseFingerprint`
has cause `ErrInvalidFingerprint`; `DecodeFingerprintString` on the empty
string fails with `ErrInvalidFingerprint`; and a failure of
`ParseFingerprintString` has a cause other than `ErrInvalidFingerprint`
exactly when the input is non-empty and rejected by the base64 decoder —
malformed base64 text surfaces the decoder's own error kind, wrapped but
with its cause preserved, not `InvalidFingerprint`. -/
theorem C8_error_kinds_amended :
    (∀ (data : List Nat) (e : CodecError),
      ParseFingerprint data = .err e → e.isInvalidFingerprint = true) ∧
    DecodeFingerprintString "" =
      .error (.invalidFingerprint "invalid fingerprint") ∧
    (∀ (s : String) (e : CodecError), ParseFingerprintString s = .err e →
      (e.isInvalidFingerprint = false ↔
        s.data.isEmpty = false ∧ b64Decode s.data = none)) := by
  refine ⟨fun data e h => ParseFingerprint_err_invalid h, rfl, ?_⟩
  intro s e h
  unfold ParseFingerprintString DecodeFingerprintString at h
  by_cases hs : s.data.isEmpty
  · rw [if_pos hs] at h
    simp only [errorsWrap] at h
    injection h with h'
    subst h'
    simp [hs, CodecError.isInvalidFingerprint]
  · rw [if_neg hs] at h
    cases hb : b64Decode s.data with
    | none =>
      rw [hb] at h
      simp only [errorsWrap] at h
      injection h with h'
      subst h'
      simp [hs, hb, CodecError.isInvalidFingerprint]
    | some data =>
      rw [hb] at h
      simp only at h
      have hinv := ParseFingerprint_err_invalid h
      simp [hinv, hb]

/-- C8 witness: the binary entry point's failure on the empty byte array has
cause `ErrInvalidFingerprint`. -/
theorem C8_error_kinds_amended_witness :
    CodecError.isInvalidFingerprint
      (.invalidFingerprint "encoded fingerprint is less than 4 bytes") = true :=
  C8_error_kinds_amended.1 [] _ (by decide)

/-- C9: when one side's source read fails with a non-EOF error, the pairwise
merge `ReadBlock` returns exactly that error, and the other side's
already-buffered pending block and source reader are left unchanged by the
call: on a side-1 failure, side 2 is untouched entirely; on a side-2
failure, side 1 is untouched whenever its pending block was non-empty (so it
was not refilled). -/
theorem C9_merge_failure_frame (r1 r2 nr : Reader) (b2 blk : List Item)
    (c : Nat) (it : Item) (rest : List Item) :
    (r1.isNil = false →
      r1.readBlock = some ((blk, some (.fail c)), nr) →
      Reader.readBlock (.multi r1 r2 [] b2) =
        some (([], some (.fail c)), .multi nr r2 blk b2)) ∧
    (r2.isNil = false →
      r2.readBlock = some ((blk, some (.fail c)), nr) →
      Reader.readBlock (.multi r1 r2 (it :: rest) []) =
        some (([], some (.fail c)), .multi r1 nr (it :: rest) blk)) := by
  constructor
  · intro hnil hread
    simp [Reader.readBlock, refill, hnil, hread]
  · intro hnil hread
    simp [Reader.readBlock, refill, hnil, hread]

/-- C9 witness: concrete failures on either side, with a buffered item block
on the other side, propagate the error code 7 and leave the other side's
block and reader as they were. -/
theorem C9_merge_failure_frame_witness :
    Reader.readBlock (.multi (.failRd 7) (.bufRd [⟨1, 2⟩]) [] [⟨3, 4⟩]) =
      some (([], some (.fail 7)),
        .multi (.failRd 7) (.bufRd [⟨1, 2⟩]) [] [⟨3, 4⟩]) ∧
    Reader.readBlock (.multi (.bufRd [⟨1, 2⟩]) (.failRd 7) [⟨3, 4⟩] []) =
      some (([], some (.fail 7)),
        .multi (.bufRd [⟨1, 2⟩]) (.failRd 7) [⟨3, 4⟩] []) :=
  ⟨(C9_merge_failure_frame (.failRd 7) (.bufRd [⟨1, 2⟩]) (.failRd 7)
      [⟨3, 4⟩] [] 7 ⟨0, 0⟩ []).1 (by decide) (by decide),
   (C9_merge_failure_frame (.bufRd [⟨1, 2⟩]) (.failRd 7) (.failRd 7)
      [] [] 7 ⟨3, 4⟩ []).2 (by decide) (by decide)⟩

/-- C10 counterexample: on the 7-byte input [0,0,0,1,0xE4,0x92,0x48]
(header declares one value; the 3-bit codes are [7,1,1,1,1,1,1,0]), the scan
truncates after 8 codes, so `offset = 4 + (8*3 + 8)/8 = 8` exceeds the input
length 7; since a 7-code is present, the Go slice `data[offset:]` feeding
the exceptional-code unpack is a runtime panic (slice bounds out of range),
in both the parse and the validate mode — decode is not total. -/
theorem C10_counterexample :
    unpackFingerprint [0, 0, 0, 1, 228, 146, 72] true = .panic ∧
    unpackFingerprint [0, 0, 0, 1, 228, 146, 72] false = .panic := by
  decide

/-- C10 (amended): the hashes reconstruction itself never accesses the
output array out of bounds — after truncation at the `totalValues`-th zero
code the running value index stays strictly below `totalValues` at every
access, so whenever the front half succeeds the reconstruction succeeds and
decode returns a fingerprint or an error; the only panic of
`unpackFingerprint`, in either entry mode, is the front half's
`data[offset:]` slice panic (exceptional-code unpack with `offset` past the
end of the input). -/
theorem C10_panic_only_slice (data : List Nat) (wantFp : Bool) :
    (unpackFingerprint data wantFp).isPanic = (unpackCommon data).isPanic ∧
    (∀ (v total : Nat) (bits : List Nat),
      unpackCommon data = .ok v total bits →
      (reconstructLoop bits (List.replicate total 0) 0 0).isSome = true) := by
  constructor
  · unfold unpackFingerprint
    cases hc : unpackCommon data with
    | err e => rfl
    | panic => rfl
    | ok v total bits =>
      obtain ⟨hcount, hlast⟩ := unpackCommon_spec hc
      have hsome := reconstructLoop_isSome bits (List.replicate total 0) 0 0
        hlast (by simp [hcount])
      cases wantFp with
      | false => rfl
      | true =>
        rcases hrec : reconstructLoop bits (List.replicate total 0) 0 0
          with _ | hs
        · rw [hrec] at hsome
          simp at hsome
        · simp [hrec, UnpackResult.isPanic, CommonResult.isPanic]
  · intro v total bits hc
    obtain ⟨hcount, hlast⟩ := unpackCommon_spec hc
    exact reconstructLoop_isSome bits (List.replicate total 0) 0 0 hlast
      (by simp [hcount])

/-- C10 witness: on the valid input [0,0,0,1,0] the front half succeeds with
one declared value and code array [0], and the reconstruction succeeds. -/
theorem C10_panic_only_slice_witness :
    (reconstructLoop [0] (List.replicate 1 0) 0 0).isSome = true :=
  (C10_panic_only_slice [0, 0, 0, 1, 0] true).2 0 1 [0] (by decide)
